import Mathlib

/-!
# DGEN: shallow embedding of `main.py` (dataset expander) and `install.py` (installer)

The repository holds two independent scripts.  `install.py` is a
self-verifying dependency installer: a hash-based self-check gate, a
requirements reader, a per-package validate → install → verify loop and a
user-approved rollback.  `main.py` is a CSV dataset expander: it reads a
sample, asks a chat API for an analysis, then loops requesting batches of
new rows (capped at 50) and appends them to an output CSV copy.

External boundaries (the `pip` subprocess, `importlib.import_module`, the
Cohere chat API, `input()` answers) are modelled as oracle functions passed
to the embedded code; file contents are passed as explicit values.  Strings
are Lean `String`s (a wrapper around `List Char`), so every definition is
executable.
-/

/-! ## Python string primitives used by the scripts -/

/-- ASCII whitespace stripped by Python `str.strip()`. -/
def isPyWhitespace (c : Char) : Bool :=
  c = ' ' || c = '\t' || c = '\n' || c = '\r' || c = '\x0b' || c = '\x0c'

/-- `str.strip()` on the underlying character list. -/
def pyStripList (cs : List Char) : List Char :=
  ((cs.dropWhile isPyWhitespace).reverse.dropWhile isPyWhitespace).reverse

/-- Python `line.strip()`. -/
def pyStrip (s : String) : String := String.mk (pyStripList s.data)

/-- Python `line.startswith('#')` (on the raw, unstripped line). -/
def pyStartsWithHash (s : String) : Bool :=
  match s.data with
  | '#' :: _ => true
  | _ => false

/-- Python `s.lower()` (ASCII). -/
def pyLower (s : String) : String := String.mk (s.data.map Char.toLower)

/-- Worker for `str.splitlines()`: split at `\r\n`, `\n` or `\r`; a final
fragment is emitted only if nonempty (so a trailing newline adds no line). -/
def pySplitlinesAux : List Char → List Char → List (List Char)
  | [], acc => if acc.isEmpty then [] else [acc.reverse]
  | '\r' :: '\n' :: rest, acc => acc.reverse :: pySplitlinesAux rest []
  | '\n' :: rest, acc => acc.reverse :: pySplitlinesAux rest []
  | '\r' :: rest, acc => acc.reverse :: pySplitlinesAux rest []
  | c :: rest, acc => pySplitlinesAux rest (c :: acc)

/-- Python `s.splitlines()`. -/
def pySplitlines (s : String) : List (List Char) := pySplitlinesAux s.data []

/-! ## The CSV record format (Python `csv` module, default dialect)

`main.py` parses the chat API's text with `csv.reader(new_data.splitlines())`
and writes each parsed row back with `csv.writer(...).writerow(row)`.  One
line holds one record; fields are separated by `,`; a field is wrapped in
`"` quotes when it contains `,`, `"`, `\n` or `\r` (QUOTE_MINIMAL), with
inner quotes doubled; a record consisting of a single empty field is written
as `""` (CPython: "single empty field record must be quoted"). -/

/-- Field splitter of `csv.reader` on one record, mirroring CPython's parser
states: `0` = START_FIELD, `1` = IN_FIELD (unquoted), `2` = IN_QUOTED_FIELD,
`3` = QUOTE_IN_QUOTED_FIELD.  A `"` opens quoting only at field start; inside
quotes `""` is a literal quote; after a closing quote a `,` ends the field
and (non-strict mode) any other character is appended unquoted. -/
def parseFieldsSM : List Char → List Char → Nat → List (List Char)
  | [], acc, _ => [acc.reverse]
  | c :: cs, acc, state =>
    if state = 0 then
      if c = ',' then acc.reverse :: parseFieldsSM cs [] 0
      else if c = '"' then parseFieldsSM cs acc 2
      else parseFieldsSM cs (c :: acc) 1
    else if state = 1 then
      if c = ',' then acc.reverse :: parseFieldsSM cs [] 0
      else parseFieldsSM cs (c :: acc) 1
    else if state = 2 then
      if c = '"' then parseFieldsSM cs acc 3
      else parseFieldsSM cs (c :: acc) 2
    else
      if c = '"' then parseFieldsSM cs ('"' :: acc) 2
      else if c = ',' then acc.reverse :: parseFieldsSM cs [] 0
      else parseFieldsSM cs (c :: acc) 1

/-- `csv.reader` on one line: an empty line yields the empty record. -/
def parseRecordRaw (line : List Char) : List (List Char) :=
  if line.isEmpty then [] else parseFieldsSM line [] 0

/-- One parsed CSV record, fields as strings. -/
def parseCSVRecord (line : List Char) : List String :=
  (parseRecordRaw line).map fun f => String.mk f

/-- Does `csv.writer` (QUOTE_MINIMAL) have to quote this field? -/
def csvNeedsQuote (f : List Char) : Bool :=
  f.any fun c => c = ',' || c = '"' || c = '\n' || c = '\r'

/-- Double every `"` inside a quoted field. -/
def csvEscape : List Char → List Char
  | [] => []
  | c :: cs => if c = '"' then '"' :: '"' :: csvEscape cs else c :: csvEscape cs

/-- One serialized field of `csv.writer`. -/
def csvWriteField (f : List Char) : List Char :=
  if csvNeedsQuote f then '"' :: (csvEscape f ++ ['"']) else f

/-- `csv.writer(...).writerow(row)`: the line written for one record (without
the line terminator).  A record holding a single empty field is quoted. -/
def csvWriteRecord (row : List (List Char)) : List Char :=
  if row = [[]] then ['"', '"']
  else List.intercalate [','] (row.map csvWriteField)

/-- The records obtained from one chat response text, as in `append_to_csv`:
`for row in csv.reader(new_data.splitlines())`. -/
def recordsOfText (new_data : String) : List (List String) :=
  (pySplitlines new_data).map parseCSVRecord

/-- `append_to_csv(file_path, new_data)` at the record level: the output file
is opened in append mode and each record parsed from `new_data` is written at
the end with `csv.writer`. -/
def append_to_csv (file : List (List String)) (new_data : String) : List (List String) :=
  file ++ recordsOfText new_data

/-! ## The expansion loop of `main.py` (`main`, lines 150–160) -/

/-- Mutable state of the `while rows_added < rows_to_add` loop: the running
total `rows_added`, the records of the output file, and the log of requested
batch sizes (one entry per `expand_dataset` chat call, in order). -/
structure ExpState where
  rows_added : Nat
  file : List (List String)
  calls : List Nat
deriving DecidableEq

/-- One run of the expansion loop.  `api i n` is the text returned by the
`i`-th `expand_dataset` chat call requesting `n` rows (`none` = API error, on
which the loop returns immediately).  The `fuel` argument only drives the
recursion: each iteration adds `new_rows = min 50 (rows_to_add - rows_added)
≥ 1` to `rows_added`, so from deficit `d` at most `d` iterations happen and
fuel `d` reproduces the `while` loop exactly. -/
def expansion_loop_aux (api : Nat → Nat → Option String) (rows_to_add : Nat) :
    Nat → ExpState → ExpState
  | 0, s => s
  | fuel + 1, s =>
    if s.rows_added < rows_to_add then
      let new_rows := min 50 (rows_to_add - s.rows_added)
      match api s.calls.length new_rows with
      | none => { s with calls := s.calls ++ [new_rows] }
      | some new_data =>
        expansion_loop_aux api rows_to_add fuel
          { rows_added := s.rows_added + new_rows
            file := append_to_csv s.file new_data
            calls := s.calls ++ [new_rows] }
    else s

/-- The expansion loop run from state `s` until `rows_added ≥ rows_to_add`
(or an API failure). -/
def expansion_loop (api : Nat → Nat → Option String) (rows_to_add : Nat)
    (s : ExpState) : ExpState :=
  expansion_loop_aux api rows_to_add (rows_to_add - s.rows_added) s

/-- The requested batch sizes produced by repeatedly taking
`min 50 remaining_deficit` until the deficit is zero (fuel-driven, fuel `d`
suffices for deficit `d`). -/
def expansionBatchesAux : Nat → Nat → List Nat
  | 0, _ => []
  | fuel + 1, d =>
    if 0 < d then min 50 d :: expansionBatchesAux fuel (d - min 50 d) else []

/-- The full batch schedule for an initial deficit `d`. -/
def expansionBatches (d : Nat) : List Nat := expansionBatchesAux d d

/-- `clampChain d l`: each successive entry of `l` equals
`min 50 remaining_deficit`, the deficit starting at `d` and shrinking by each
entry. -/
def clampChain : Nat → List Nat → Bool
  | _, [] => true
  | d, b :: t => b == min 50 d && clampChain (d - b) t

/-- Observable outcome of one expander run (from the point where
`rows_to_add` is computed, `main.py` lines 134–163): how many analysis chat
calls and which generation chat calls were made, and the records of the
output artifact (`none` = the output file was never created). -/
structure ExpanderRun where
  analysisCalls : Nat
  generationCalls : List Nat
  output : Option (List (List String))
deriving DecidableEq

/-- `main()` of `main.py` after the input file and `target_rows` are read:
compute `rows_to_add = max(0, target_rows - current_rows)` (Nat subtraction
is exactly that `max`), return early when it is zero; otherwise one analysis
chat call is made (`analysisResult = none` = API failure, which aborts before
the output file is created); otherwise the original rows are copied to the
output file and the expansion loop runs. -/
def expander_main (api : Nat → Nat → Option String) (analysisResult : Option String)
    (originalRows : List (List String)) (target_rows : Nat) : ExpanderRun :=
  let current_rows := originalRows.length
  let rows_to_add := target_rows - current_rows
  if rows_to_add = 0 then ⟨0, [], none⟩
  else
    match analysisResult with
    | none => ⟨1, [], none⟩
    | some _ =>
      let final := expansion_loop api rows_to_add ⟨0, originalRows, []⟩
      ⟨1, final.calls, some final.file⟩

/-! ## `install.py`: requirement validation -/

/-- The character class `[a-zA-Z0-9_.-]` of `validate_package_name`. -/
def isGrammarChar (c : Char) : Bool :=
  c.isAlpha || c.isDigit || c = '_' || c = '.' || c = '-'

/-- The operator-start class `[<>=!]`. -/
def isOpChar (c : Char) : Bool :=
  c = '<' || c = '>' || c = '=' || c = '!'

/-- `[a-zA-Z0-9_.-]+` up to the end of the string (the version). -/
def versionPart : List Char → Bool
  | [] => false
  | c :: cs => isGrammarChar c && cs.all isGrammarChar

/-- After the operator's first character: an optional `=`, then the version.
(The two classes are disjoint, so this deterministic reading is equivalent to
the regex with backtracking: a version can never start with `=`.) -/
def opTailPart (cs : List Char) : Bool :=
  if cs.head? = some '=' then versionPart cs.tail else versionPart cs

/-- After the first name character: more name characters, then the end or one
operator with a version. -/
def afterNamePart : List Char → Bool
  | [] => true
  | c :: cs => if isGrammarChar c then afterNamePart cs else isOpChar c && opTailPart cs

/-- Full match of `^[a-zA-Z0-9_.-]+([<>=!]=?[a-zA-Z0-9_.-]+)?$` against the
whole character list. -/
def regexMatches : List Char → Bool
  | [] => false
  | c :: cs => isGrammarChar c && afterNamePart cs

/-- `validate_package_name` (`install.py` line 43):
`bool(re.match(r'^[a-zA-Z0-9_.-]+([<>=!]=?[a-zA-Z0-9_.-]+)?$', package))`.
Python's `$` (without `re.MULTILINE`) also matches just before a newline at
the very end of the string, so a single trailing `'\n'` is tolerated. -/
def validate_package_name (package : String) : Bool :=
  regexMatches package.data ||
    (package.data.getLast? = some '\n' && regexMatches package.data.dropLast)

/-! ## `install.py`: requirements manifest reader -/

/-- `read_requirements` (`install.py` line 36) on the lines of the manifest:
`[line.strip() for line in f if line.strip() and not line.startswith('#')]`.
The comment test looks at the raw line, the blank test at the stripped one. -/
def read_requirements (lines : List String) : List String :=
  lines.filterMap fun line =>
    if pyStrip line ≠ "" ∧ ¬ pyStartsWithHash line then some (pyStrip line) else none

/-- The manifest contract in the spec's words: blank lines and `#`-prefixed
comment lines are ignored, every other line is returned stripped. -/
def read_requirements_spec (lines : List String) : List String :=
  (lines.filter fun line => !(pyStrip line == "") && !pyStartsWithHash line).map pyStrip

/-! ## `install.py`: installation verifier -/

/-- Python `package.split('==')[0]`: everything before the first `==`. -/
def pySplitFirstEqEq : List Char → List Char
  | [] => []
  | c :: cs => if c = '=' ∧ cs.head? = some '=' then [] else c :: pySplitFirstEqEq cs

/-- Does the string contain `==` as a substring? -/
def hasEqEq : List Char → Bool
  | [] => false
  | c :: cs => if c = '=' ∧ cs.head? = some '=' then true else hasEqEq cs

/-- Python `name.replace('-', '_')`. -/
def pyReplaceDash (cs : List Char) : List Char :=
  cs.map fun c => if c = '-' then '_' else c

/-- Worker for Python `name.split('-')`. -/
def pySplitDashAux : List Char → List Char → List (List Char)
  | [], acc => [acc.reverse]
  | c :: rest, acc =>
    if c = '-' then acc.reverse :: pySplitDashAux rest []
    else pySplitDashAux rest (c :: acc)

/-- Python `name.split('-')` (never empty; splitting "" gives [""]). -/
def pySplitDash (cs : List Char) : List (List Char) := pySplitDashAux cs []

/-- Python `name.split('-')[-1]`. -/
def lastDashPart (cs : List Char) : List Char := ((pySplitDash cs).getLast?).getD []

/-- Python `''.join(part for part in name.split('-'))`: drop every `-`. -/
def removeDashes (cs : List Char) : List Char := cs.filter fun c => c ≠ '-'

/-- `verify_installation` (`install.py` lines 63–82): the module names passed
to `importlib.import_module`, in the order they are attempted when every
earlier attempt raises `ImportError`: the literal `package.split('==')[0]`,
then its hyphen variations. -/
def importCandidates (package : String) : List String :=
  let package_name := pySplitFirstEqEq package.data
  [String.mk package_name, String.mk (pyReplaceDash package_name),
    String.mk (lastDashPart package_name), String.mk (removeDashes package_name)]

/-- The argument handed to `pip show` as a last resort (line 86). -/
def pipShowArg (package : String) : String := String.mk (pySplitFirstEqEq package.data)

/-- `verify_installation`'s boolean result.  `importOk m` = importing module
`m` succeeds; `pipShowVersion p` = the `pip show p` subprocess exits cleanly
and its stdout contains `"Version:"`.  The function returns `True` as soon as
one import works, otherwise falls back to `pip show`; it never raises. -/
def verify_installation (importOk : String → Bool) (pipShowVersion : String → Bool)
    (package : String) : Bool :=
  (importCandidates package).any importOk || pipShowVersion (pipShowArg package)

/-! ## `install.py`: self-check gate -/

/-- Result of `self_check` plus its persistent effect: whether the run may
proceed, the digest stored in `.install_script_hash` afterwards, and whether
the user was prompted. -/
structure SelfCheckOutcome where
  proceed : Bool
  storedAfter : String
  prompted : Bool
deriving DecidableEq

/-- `self_check` (`install.py` lines 113–131).  `current_hash` is the SHA-256
digest of the script file; `saved_hash` is what `load_script_hash` returned
(`""` when the sidecar file is missing); `answer` is the user's reply to the
continue-anyway prompt, accepted iff it lowercases to exactly `"y"`. -/
def self_check (current_hash saved_hash : String) (answer : String) : SelfCheckOutcome :=
  if saved_hash = "" then ⟨true, current_hash, false⟩
  else if current_hash ≠ saved_hash then
    if pyLower answer = "y" then ⟨true, current_hash, true⟩
    else ⟨false, saved_hash, true⟩
  else ⟨true, saved_hash, false⟩

/-! ## `install.py`: the per-package install loop of `main` (lines 153–180) -/

/-- Observable events of the installer run, in program order.  `installCall`
and `uninstallCall` are the two `pip` subprocess invocations that receive a
package string; `verifyResult p false` is the non-fatal verification
warning; `rollbackPrompt` records the user's decision at an install failure;
`rollbackDone` is the `return` after a rollback; `completed` is the final
"Installation process completed." print. -/
inductive InstEvent where
  | skipped (p : String)
  | installCall (p : String) (ok : Bool)
  | verifyResult (p : String) (ok : Bool)
  | rollbackPrompt (approved : Bool)
  | uninstallCall (p : String) (ok : Bool)
  | rollbackDone
  | completed
deriving DecidableEq

/-- The `for package in requirements` loop.  Oracles: `install p` = the
`pip install p` subprocess succeeds; `verify p` = `verify_installation`
returns `True` for `p`; `uninstallOk p` = the `pip uninstall -y p` subprocess
succeeds (failures are printed and do not stop the rollback iteration);
`rollbackAns k` = the user's answer to the `k`-th rollback prompt, approving
iff it lowercases to `"y"`.  `installed` is the `installed_packages` record —
note the source appends a package only inside the `if verify_installation`
branch (line 165). -/
def installer_loop (install verify uninstallOk : String → Bool)
    (rollbackAns : Nat → String) :
    List String → List String → Nat → List InstEvent
  | [], _, _ => [.completed]
  | p :: rest, installed, prompts =>
    if ¬ validate_package_name p then
      .skipped p :: installer_loop install verify uninstallOk rollbackAns rest installed prompts
    else if install p then
      if verify p then
        .installCall p true :: .verifyResult p true ::
          installer_loop install verify uninstallOk rollbackAns rest (installed ++ [p]) prompts
      else
        .installCall p true :: .verifyResult p false ::
          installer_loop install verify uninstallOk rollbackAns rest installed prompts
    else if pyLower (rollbackAns prompts) = "y" then
      .installCall p false :: .rollbackPrompt true ::
        ((installed.map fun q => InstEvent.uninstallCall q (uninstallOk q)) ++ [.rollbackDone])
    else
      .installCall p false :: .rollbackPrompt false ::
        installer_loop install verify uninstallOk rollbackAns rest installed (prompts + 1)

/-- The package strings handed to a `pip` subprocess (install or uninstall)
during a run. -/
def subprocessPackageArgs (events : List InstEvent) : List String :=
  events.filterMap fun e =>
    match e with
    | .installCall p _ => some p
    | .uninstallCall p _ => some p
    | _ => none

/-- `main()` of `install.py`: the self-check gate, the Python probe, the
manifest check (`manifest = none` = `requirements.txt` missing), then the
install loop over `read_requirements`.  Every early `return` happens before
any package operation, so it yields an empty event list. -/
def installer_main (current_hash saved_hash answer : String) (pythonOk : Bool)
    (manifest : Option (List String)) (install verify uninstallOk : String → Bool)
    (rollbackAns : Nat → String) : List InstEvent :=
  if !(self_check current_hash saved_hash answer).proceed then []
  else if !pythonOk then []
  else
    match manifest with
    | none => []
    | some lines =>
      let requirements := read_requirements lines
      if requirements = [] then []
      else installer_loop install verify uninstallOk rollbackAns requirements [] 0

/-! ## Lemmas: the CSV writer/reader round trip -/

lemma parseFieldsSM_unquoted (f : List Char) :
    ∀ rest acc, (∀ c ∈ f, c ≠ ',') →
      parseFieldsSM (f ++ rest) acc 1 = parseFieldsSM rest (f.reverse ++ acc) 1 := by
  induction f with
  | nil => intro rest acc _; simp
  | cons c f ih =>
    intro rest acc hf
    have hc : c ≠ ',' := hf c (by simp)
    have hrec := ih rest (c :: acc) fun d hd => hf d (by simp [hd])
    simp only [List.cons_append, parseFieldsSM, hc, if_false]
    simpa using hrec

lemma parseFieldsSM_quoted (f : List Char) :
    ∀ rest acc, parseFieldsSM (csvEscape f ++ ('"' :: rest)) acc 2 =
      parseFieldsSM rest (f.reverse ++ acc) 3 := by
  induction f with
  | nil => intro rest acc; simp [csvEscape, parseFieldsSM]
  | cons c f ih =>
    intro rest acc
    by_cases hc : c = '"'
    · subst hc
      simp only [csvEscape, if_pos rfl, List.cons_append, parseFieldsSM]
      norm_num
      rw [ih rest ('"' :: acc)]
    · simp only [csvEscape, if_neg hc, List.cons_append, parseFieldsSM, hc, if_false]
      rw [ih rest (c :: acc)]
      simp

lemma csvNeedsQuote_false_spec {f : List Char} (h : csvNeedsQuote f = false) :
    ∀ c ∈ f, c ≠ ',' ∧ c ≠ '"' := by
  intro c hc
  simp only [csvNeedsQuote, List.any_eq_false] at h
  have hcf := h c hc
  simp only [Bool.or_eq_true, decide_eq_true_eq] at hcf
  push_neg at hcf
  exact ⟨hcf.1.1.1, hcf.1.1.2⟩

lemma parseFieldsSM_writeField_comma (f rest acc : List Char) :
    parseFieldsSM (csvWriteField f ++ (',' :: rest)) acc 0 =
      (acc.reverse ++ f) :: parseFieldsSM rest [] 0 := by
  by_cases hq : csvNeedsQuote f
  · simp only [csvWriteField, hq, if_true, List.cons_append, List.append_assoc]
    simp only [parseFieldsSM]
    norm_num
    rw [if_neg (show ¬('"' = ',') by decide)]
    rw [parseFieldsSM_quoted f (',' :: rest) acc]
    simp [parseFieldsSM]
  · have hf := csvNeedsQuote_false_spec (by simpa using hq)
    simp only [csvWriteField, hq, if_false]
    cases f with
    | nil => simp [parseFieldsSM]
    | cons c f =>
      have hc := hf c (by simp)
      simp only [List.cons_append, parseFieldsSM]
      norm_num [hc.1, hc.2]
      rw [parseFieldsSM_unquoted f (',' :: rest) (c :: acc)
        fun d hd => (hf d (by simp [hd])).1]
      simp [parseFieldsSM]

lemma parseFieldsSM_writeField_last (f acc : List Char) :
    parseFieldsSM (csvWriteField f) acc 0 = [acc.reverse ++ f] := by
  by_cases hq : csvNeedsQuote f
  · simp only [csvWriteField, hq, if_true]
    have hquote := parseFieldsSM_quoted f [] acc
    simp only [List.append_nil] at hquote
    simp only [List.cons_append, parseFieldsSM]
    norm_num
    rw [if_neg (show ¬('"' = ',') by decide)]
    rw [hquote]
    simp [parseFieldsSM]
  · have hf := csvNeedsQuote_false_spec (by simpa using hq)
    simp only [csvWriteField, hq, if_false]
    cases f with
    | nil => simp [parseFieldsSM]
    | cons c f =>
      have hc := hf c (by simp)
      simp only [parseFieldsSM]
      norm_num [hc.1, hc.2]
      have hunq := parseFieldsSM_unquoted f [] (c :: acc) fun d hd => (hf d (by simp [hd])).1
      simp only [List.append_nil] at hunq
      rw [hunq]
      simp [parseFieldsSM]

lemma intercalate_comma_single (a : List Char) : List.intercalate [','] [a] = a := by
  simp [List.intercalate]

lemma intercalate_comma_cons (a b : List Char) (l : List (List Char)) :
    List.intercalate [','] (a :: b :: l) = a ++ ',' :: List.intercalate [','] (b :: l) := by
  simp [List.intercalate, List.intersperse]

lemma parseFieldsSM_writeFields (row : List (List Char)) (hrow : row ≠ []) :
    parseFieldsSM (List.intercalate [','] (row.map csvWriteField)) [] 0 = row := by
  induction row with
  | nil => cases hrow rfl
  | cons f row ih =>
    cases row with
    | nil =>
      rw [List.map_cons, List.map_nil, intercalate_comma_single]
      simpa using parseFieldsSM_writeField_last f []
    | cons g row =>
      have hih := ih (by simp)
      simp only [List.map_cons] at hih ⊢
      rw [intercalate_comma_cons, parseFieldsSM_writeField_comma, hih]
      simp

/-- The written form of a nonempty record other than `[[]]` is never the
empty line. -/
lemma csvWriteRecord_ne_nil (row : List (List Char)) (h0 : row ≠ []) (h1 : row ≠ [[]]) :
    csvWriteRecord row ≠ [] := by
  cases row with
  | nil => cases h0 rfl
  | cons f row =>
    cases row with
    | nil =>
      cases f with
      | nil => cases h1 rfl
      | cons c f =>
        simp only [csvWriteRecord, List.map_cons, List.map_nil, intercalate_comma_single]
        by_cases hq : csvNeedsQuote (c :: f) <;> simp [csvWriteField, hq, h1]
    | cons g row =>
      simp only [csvWriteRecord, List.map_cons, intercalate_comma_cons]
      intro hcontra
      have h1' : (f :: g :: row : List (List Char)) ≠ [[]] := by simp
      simp only [h1', if_false] at hcontra
      rcases List.append_eq_nil.mp hcontra with ⟨-, h⟩
      simp at h

/-- Round trip of the `csv` module on one record: parsing the line written by
`csv.writer` for a record returns exactly that record. -/
theorem parseRecordRaw_csvWriteRecord (row : List (List Char)) :
    parseRecordRaw (csvWriteRecord row) = row := by
  by_cases h0 : row = []
  · subst h0; decide
  by_cases h1 : row = [[]]
  · subst h1; decide
  have hne := csvWriteRecord_ne_nil row h0 h1
  rw [parseRecordRaw, if_neg (by simpa [List.isEmpty_iff] using hne)]
  rw [csvWriteRecord, if_neg h1]
  exact parseFieldsSM_writeFields row h0

/-- Round trip at the `String` level: re-parsing the line that `csv.writer`
writes for a record yields the record itself, field for field. -/
theorem parseCSVRecord_write (r : List String) :
    parseCSVRecord (csvWriteRecord (r.map String.data)) = r := by
  rw [parseCSVRecord, parseRecordRaw_csvWriteRecord, List.map_map]
  have hid : ((fun f => String.mk f) ∘ String.data) = (id : String → String) := rfl
  rw [hid, List.map_id]

/-! ## Lemmas: the expansion loop -/

lemma expansion_loop_aux_stop (api : Nat → Nat → Option String) (R fuel : Nat)
    (s : ExpState) (h : ¬ s.rows_added < R) :
    expansion_loop_aux api R (fuel + 1) s = s := by
  simp [expansion_loop_aux, h]

lemma expansion_loop_aux_fail (api : Nat → Nat → Option String) (R fuel : Nat)
    (s : ExpState) (h : s.rows_added < R)
    (hc : api s.calls.length (min 50 (R - s.rows_added)) = none) :
    expansion_loop_aux api R (fuel + 1) s =
      { s with calls := s.calls ++ [min 50 (R - s.rows_added)] } := by
  simp [expansion_loop_aux, h, hc]

lemma expansion_loop_aux_step (api : Nat → Nat → Option String) (R fuel : Nat)
    (s : ExpState) (txt : String) (h : s.rows_added < R)
    (hc : api s.calls.length (min 50 (R - s.rows_added)) = some txt) :
    expansion_loop_aux api R (fuel + 1) s =
      expansion_loop_aux api R fuel
        { rows_added := s.rows_added + min 50 (R - s.rows_added)
          file := append_to_csv s.file txt
          calls := s.calls ++ [min 50 (R - s.rows_added)] } := by
  simp [expansion_loop_aux, h, hc]

lemma expansionBatchesAux_zero_deficit (fuel : Nat) : expansionBatchesAux fuel 0 = [] := by
  cases fuel <;> simp [expansionBatchesAux]

/-- Under a never-failing API the loop's call log is exactly the batch
schedule of the remaining deficit. -/
lemma expansion_loop_aux_calls (api : Nat → Nat → Option String) (R : Nat)
    (hapi : ∀ i n, (api i n).isSome) :
    ∀ fuel s, (expansion_loop_aux api R fuel s).calls
      = s.calls ++ expansionBatchesAux fuel (R - s.rows_added) := by
  intro fuel
  induction fuel with
  | zero => intro s; simp [expansion_loop_aux, expansionBatchesAux]
  | succ fuel ih =>
    intro s
    by_cases h : s.rows_added < R
    · have hx := hapi s.calls.length (min 50 (R - s.rows_added))
      cases hc : api s.calls.length (min 50 (R - s.rows_added)) with
      | none => rw [hc] at hx; simp at hx
      | some txt =>
        rw [expansion_loop_aux_step api R fuel s txt h hc, ih]
        have harith : R - (s.rows_added + min 50 (R - s.rows_added))
            = (R - s.rows_added) - min 50 (R - s.rows_added) := by omega
        simp only [harith]
        rw [show expansionBatchesAux (fuel + 1) (R - s.rows_added)
            = min 50 (R - s.rows_added)
              :: expansionBatchesAux fuel ((R - s.rows_added) - min 50 (R - s.rows_added)) by
          simp [expansionBatchesAux]; omega]
        simp
    · rw [expansion_loop_aux_stop api R fuel s h]
      have : R - s.rows_added = 0 := by omega
      rw [this, expansionBatchesAux_zero_deficit]
      simp

/-- Under a never-failing API the running total advances by exactly the sum
of the requested batch sizes. -/
lemma expansion_loop_aux_rows_added (api : Nat → Nat → Option String) (R : Nat)
    (hapi : ∀ i n, (api i n).isSome) :
    ∀ fuel s, (expansion_loop_aux api R fuel s).rows_added
      = s.rows_added + (expansionBatchesAux fuel (R - s.rows_added)).sum := by
  intro fuel
  induction fuel with
  | zero => intro s; simp [expansion_loop_aux, expansionBatchesAux]
  | succ fuel ih =>
    intro s
    by_cases h : s.rows_added < R
    · have hx := hapi s.calls.length (min 50 (R - s.rows_added))
      cases hc : api s.calls.length (min 50 (R - s.rows_added)) with
      | none => rw [hc] at hx; simp at hx
      | some txt =>
        rw [expansion_loop_aux_step api R fuel s txt h hc, ih]
        have harith : R - (s.rows_added + min 50 (R - s.rows_added))
            = (R - s.rows_added) - min 50 (R - s.rows_added) := by omega
        simp only [harith]
        rw [show expansionBatchesAux (fuel + 1) (R - s.rows_added)
            = min 50 (R - s.rows_added)
              :: expansionBatchesAux fuel ((R - s.rows_added) - min 50 (R - s.rows_added)) by
          simp [expansionBatchesAux]; omega]
        simp
        omega
    · rw [expansion_loop_aux_stop api R fuel s h]
      have : R - s.rows_added = 0 := by omega
      rw [this, expansionBatchesAux_zero_deficit]
      simp

/-- With enough fuel the batch schedule sums to the whole deficit. -/
lemma expansionBatchesAux_sum : ∀ fuel d, d ≤ fuel → (expansionBatchesAux fuel d).sum = d := by
  intro fuel
  induction fuel with
  | zero => intro d hd; interval_cases d; simp [expansionBatchesAux]
  | succ fuel ih =>
    intro d hd
    by_cases h : 0 < d
    · simp only [expansionBatchesAux, h, if_true, List.sum_cons]
      rw [ih (d - min 50 d) (by omega)]
      omega
    · simp [expansionBatchesAux, h]
      omega

/-- Every entry of the batch schedule is the clamp `min 50 remaining`. -/
lemma expansionBatchesAux_clamp : ∀ fuel d, clampChain d (expansionBatchesAux fuel d) = true := by
  intro fuel
  induction fuel with
  | zero => intro d; simp [expansionBatchesAux, clampChain]
  | succ fuel ih =>
    intro d
    by_cases h : 0 < d
    · simp only [expansionBatchesAux, h, if_true, clampChain]
      simp [ih]
    · simp [expansionBatchesAux, h, clampChain]

/-- For an arbitrary API (failures allowed), whatever the loop appends to its
call log is a chain of clamped batch sizes: each request is
`min 50 remaining_deficit`. -/
lemma expansion_loop_aux_clamp (api : Nat → Nat → Option String) (R : Nat) :
    ∀ fuel s, ∃ tail, (expansion_loop_aux api R fuel s).calls = s.calls ++ tail ∧
      clampChain (R - s.rows_added) tail = true := by
  intro fuel
  induction fuel with
  | zero => intro s; exact ⟨[], by simp [expansion_loop_aux], by simp [clampChain]⟩
  | succ fuel ih =>
    intro s
    by_cases h : s.rows_added < R
    · cases hc : api s.calls.length (min 50 (R - s.rows_added)) with
      | none =>
        refine ⟨[min 50 (R - s.rows_added)], ?_, ?_⟩
        · rw [expansion_loop_aux_fail api R fuel s h hc]
        · simp [clampChain]
      | some txt =>
        obtain ⟨tail, htail, hchain⟩ := ih
          { rows_added := s.rows_added + min 50 (R - s.rows_added)
            file := append_to_csv s.file txt
            calls := s.calls ++ [min 50 (R - s.rows_added)] }
        refine ⟨min 50 (R - s.rows_added) :: tail, ?_, ?_⟩
        · rw [expansion_loop_aux_step api R fuel s txt h hc, htail]
          simp
        · simp only [clampChain, beq_self_eq_true, Bool.true_and]
          have harith : R - (s.rows_added + min 50 (R - s.rows_added))
              = (R - s.rows_added) - min 50 (R - s.rows_added) := by omega
          rw [harith] at hchain
          exact hchain
    · exact ⟨[], by rw [expansion_loop_aux_stop api R fuel s h]; simp, by simp [clampChain]⟩

/-- The loop only ever appends to the output file. -/
lemma expansion_loop_aux_file_mono (api : Nat → Nat → Option String) (R : Nat) :
    ∀ fuel s, ∃ t, (expansion_loop_aux api R fuel s).file = s.file ++ t := by
  intro fuel
  induction fuel with
  | zero => intro s; exact ⟨[], by simp [expansion_loop_aux]⟩
  | succ fuel ih =>
    intro s
    by_cases h : s.rows_added < R
    · cases hc : api s.calls.length (min 50 (R - s.rows_added)) with
      | none => exact ⟨[], by rw [expansion_loop_aux_fail api R fuel s h hc]; simp⟩
      | some txt =>
        obtain ⟨t, ht⟩ := ih
          { rows_added := s.rows_added + min 50 (R - s.rows_added)
            file := append_to_csv s.file txt
            calls := s.calls ++ [min 50 (R - s.rows_added)] }
        refine ⟨recordsOfText txt ++ t, ?_⟩
        rw [expansion_loop_aux_step api R fuel s txt h hc, ht]
        simp [append_to_csv]
    · exact ⟨[], by rw [expansion_loop_aux_stop api R fuel s h]; simp⟩

/-- If every API response parses to at most the requested number of records,
the file grows by at most the remaining deficit. -/
lemma expansion_loop_aux_file_bound (api : Nat → Nat → Option String) (R : Nat)
    (hle : ∀ i n txt, api i n = some txt → (recordsOfText txt).length ≤ n) :
    ∀ fuel s, (expansion_loop_aux api R fuel s).file.length
      ≤ s.file.length + (R - s.rows_added) := by
  intro fuel
  induction fuel with
  | zero => intro s; simp [expansion_loop_aux]
  | succ fuel ih =>
    intro s
    by_cases h : s.rows_added < R
    · cases hc : api s.calls.length (min 50 (R - s.rows_added)) with
      | none => rw [expansion_loop_aux_fail api R fuel s h hc]; simp
      | some txt =>
        rw [expansion_loop_aux_step api R fuel s txt h hc]
        have hbound := ih
          { rows_added := s.rows_added + min 50 (R - s.rows_added)
            file := append_to_csv s.file txt
            calls := s.calls ++ [min 50 (R - s.rows_added)] }
        have hrec := hle s.calls.length (min 50 (R - s.rows_added)) txt hc
        simp only [append_to_csv, List.length_append] at hbound ⊢
        omega
    · rw [expansion_loop_aux_stop api R fuel s h]; simp

/-- Every record in the final file was in the starting file or was parsed out
of some API response. -/
lemma expansion_loop_aux_file_mem (api : Nat → Nat → Option String) (R : Nat) :
    ∀ fuel s r, r ∈ (expansion_loop_aux api R fuel s).file →
      r ∈ s.file ∨ ∃ i n txt, api i n = some txt ∧ r ∈ recordsOfText txt := by
  intro fuel
  induction fuel with
  | zero => intro s r hr; simp only [expansion_loop_aux] at hr; exact Or.inl hr
  | succ fuel ih =>
    intro s r hr
    by_cases h : s.rows_added < R
    · cases hc : api s.calls.length (min 50 (R - s.rows_added)) with
      | none =>
        rw [expansion_loop_aux_fail api R fuel s h hc] at hr
        exact Or.inl hr
      | some txt =>
        rw [expansion_loop_aux_step api R fuel s txt h hc] at hr
        rcases ih _ r hr with hmem | hapi
        · simp only [append_to_csv, List.mem_append] at hmem
          rcases hmem with hmem | hmem
          · exact Or.inl hmem
          · exact Or.inr ⟨s.calls.length, min 50 (R - s.rows_added), txt, hc, hmem⟩
        · exact Or.inr hapi
    · rw [expansion_loop_aux_stop api R fuel s h] at hr
      exact Or.inl hr

/-! ## Lemmas: requirement validation -/

lemma op_not_grammar {o : Char} (h : isOpChar o = true) : isGrammarChar o = false := by
  simp only [isOpChar, Bool.or_eq_true, decide_eq_true_eq] at h
  rcases h with ((rfl | rfl) | rfl) | rfl <;> decide

lemma versionPart_chars {cs : List Char} (h : versionPart cs = true) :
    ∀ c ∈ cs, isGrammarChar c = true := by
  cases cs with
  | nil => simp [versionPart] at h
  | cons c cs =>
    simp only [versionPart, Bool.and_eq_true, List.all_eq_true] at h
    intro d hd
    rcases List.mem_cons.mp hd with rfl | hd
    · exact h.1
    · exact h.2 d hd

lemma opTailPart_chars {cs : List Char} (h : opTailPart cs = true) :
    ∀ c ∈ cs, isGrammarChar c = true ∨ isOpChar c = true := by
  rw [opTailPart] at h
  by_cases hh : cs.head? = some '='
  · rw [if_pos hh] at h
    cases cs with
    | nil => simp at hh
    | cons c cs =>
      have hceq : c = '=' := by simpa using hh
      intro d hd
      rcases List.mem_cons.mp hd with rfl | hd
      · right; rw [hceq]; decide
      · exact Or.inl (versionPart_chars h d hd)
  · rw [if_neg hh] at h
    intro d hd
    exact Or.inl (versionPart_chars h d hd)

lemma afterNamePart_chars : ∀ cs, afterNamePart cs = true →
    ∀ c ∈ cs, isGrammarChar c = true ∨ isOpChar c = true := by
  intro cs
  induction cs with
  | nil => intro _ c hc; cases hc
  | cons c cs ih =>
    intro h d hd
    simp only [afterNamePart] at h
    by_cases hg : isGrammarChar c
    · rw [if_pos hg] at h
      rcases List.mem_cons.mp hd with rfl | hd
      · exact Or.inl hg
      · exact ih h d hd
    · rw [if_neg hg] at h
      simp only [Bool.and_eq_true] at h
      rcases List.mem_cons.mp hd with rfl | hd
      · exact Or.inr h.1
      · exact opTailPart_chars h.2 d hd

lemma regexMatches_chars {cs : List Char} (h : regexMatches cs = true) :
    ∀ c ∈ cs, isGrammarChar c = true ∨ isOpChar c = true := by
  cases cs with
  | nil => simp [regexMatches] at h
  | cons c cs =>
    simp only [regexMatches, Bool.and_eq_true] at h
    intro d hd
    rcases List.mem_cons.mp hd with rfl | hd
    · exact Or.inl h.1
    · exact afterNamePart_chars cs h.2 d hd

lemma afterNamePart_append {n : List Char} (hn : ∀ c ∈ n, isGrammarChar c = true)
    (t : List Char) : afterNamePart (n ++ t) = afterNamePart t := by
  induction n with
  | nil => simp
  | cons c n ih =>
    rw [List.cons_append, afterNamePart, if_pos (hn c (by simp))]
    exact ih fun d hd => hn d (by simp [hd])

lemma versionPart_of_all {v : List Char} (hv0 : v ≠ []) (hv : ∀ c ∈ v, isGrammarChar c = true) :
    versionPart v = true := by
  cases v with
  | nil => cases hv0 rfl
  | cons c v =>
    simp only [versionPart, Bool.and_eq_true, List.all_eq_true]
    exact ⟨hv c (by simp), fun d hd => hv d (by simp [hd])⟩

lemma regexMatches_name {n : List Char} (hn0 : n ≠ []) (hn : ∀ c ∈ n, isGrammarChar c = true) :
    regexMatches n = true := by
  cases n with
  | nil => cases hn0 rfl
  | cons c n =>
    simp only [regexMatches, Bool.and_eq_true]
    refine ⟨hn c (by simp), ?_⟩
    have := @afterNamePart_append n (fun d hd => hn d (by simp [hd])) []
    simpa using this

lemma regexMatches_with_op {n v : List Char} {o : Char} (hn0 : n ≠ [])
    (hn : ∀ c ∈ n, isGrammarChar c = true) (ho : isOpChar o = true) (useEq : Bool)
    (hv0 : v ≠ []) (hv : ∀ c ∈ v, isGrammarChar c = true) :
    regexMatches (n ++ o :: ((if useEq then ['='] else []) ++ v)) = true := by
  cases n with
  | nil => cases hn0 rfl
  | cons c n =>
    rw [List.cons_append, regexMatches]
    simp only [Bool.and_eq_true]
    refine ⟨hn c (by simp), ?_⟩
    rw [afterNamePart_append (fun d hd => hn d (by simp [hd]))]
    rw [afterNamePart, if_neg (by simp [op_not_grammar ho]), Bool.and_eq_true]
    refine ⟨ho, ?_⟩
    cases useEq with
    | true =>
      simp only [if_true, List.cons_append, List.nil_append, opTailPart, List.head?_cons,
        Option.some.injEq, if_pos rfl, List.tail_cons]
      exact versionPart_of_all hv0 hv
    | false =>
      simp only [Bool.false_eq_true, if_false, List.nil_append]
      rw [opTailPart]
      cases v with
      | nil => cases hv0 rfl
      | cons d v =>
        have hd : isGrammarChar d = true := hv d (by simp)
        have hdne : d ≠ '=' := by
          intro hcontra
          rw [hcontra] at hd
          simp [isGrammarChar] at hd
        rw [if_neg (by simp [hdne])]
        exact versionPart_of_all (by simp) hv

/-- Accepted strings contain only grammar characters, operator characters
and possibly one final newline. -/
lemma validate_chars {s : String} (h : validate_package_name s = true) :
    (∀ c ∈ s.data, isGrammarChar c = true ∨ isOpChar c = true) ∨
      (s.data.getLast? = some '\n' ∧
        ∀ c ∈ s.data.dropLast, isGrammarChar c = true ∨ isOpChar c = true) := by
  simp only [validate_package_name, Bool.or_eq_true, Bool.and_eq_true,
    decide_eq_true_eq] at h
  rcases h with h | ⟨hlast, h⟩
  · exact Or.inl (regexMatches_chars h)
  · exact Or.inr ⟨hlast, regexMatches_chars h⟩

/-! ## Lemmas: the installer loop -/

lemma installer_loop_verify_fail (install verify uninstallOk : String → Bool)
    (rollbackAns : Nat → String) (p : String) (rest installed : List String) (prompts : Nat)
    (hval : validate_package_name p = true) (hi : install p = true) (hv : verify p = false) :
    installer_loop install verify uninstallOk rollbackAns (p :: rest) installed prompts =
      .installCall p true :: .verifyResult p false ::
        installer_loop install verify uninstallOk rollbackAns rest installed prompts := by
  simp [installer_loop, hval, hi, hv]

lemma installer_loop_rollback (install verify uninstallOk : String → Bool)
    (rollbackAns : Nat → String) (q : String) (rest : List String) :
    ∀ (ps installed : List String) (prompts : Nat),
      (∀ p ∈ ps, validate_package_name p = true ∧ install p = true) →
      validate_package_name q = true → install q = false →
      pyLower (rollbackAns prompts) = "y" →
      installer_loop install verify uninstallOk rollbackAns (ps ++ q :: rest) installed prompts =
        (ps.map fun p => [InstEvent.installCall p true, .verifyResult p (verify p)]).flatten
          ++ .installCall q false :: .rollbackPrompt true ::
            (((installed ++ ps.filter fun p => verify p).map
              fun p => InstEvent.uninstallCall p (uninstallOk p)) ++ [.rollbackDone]) := by
  intro ps
  induction ps with
  | nil =>
    intro installed prompts _ hq hiq hans
    simp [installer_loop, hq, hiq, hans]
  | cons p ps ih =>
    intro installed prompts hps hq hiq hans
    have hp := hps p (by simp)
    have hrest : ∀ r ∈ ps, validate_package_name r = true ∧ install r = true :=
      fun r hr => hps r (by simp [hr])
    by_cases hv : verify p
    · rw [List.cons_append]
      simp only [installer_loop, hp.1, not_true, if_false, hp.2, if_true, hv]
      rw [ih (installed ++ [p]) prompts hrest hq hiq hans]
      simp [List.filter_cons, hv, List.append_assoc]
    · have hv' : verify p = false := by simpa using hv
      rw [List.cons_append]
      simp only [installer_loop, hp.1, not_true, if_false, hp.2, if_true, hv']
      rw [ih installed prompts hrest hq hiq hans]
      simp [List.filter_cons, hv']

lemma installer_loop_skip (install verify uninstallOk : String → Bool)
    (rollbackAns : Nat → String) (p : String) (rest installed : List String) (prompts : Nat)
    (hval : validate_package_name p = false) :
    installer_loop install verify uninstallOk rollbackAns (p :: rest) installed prompts =
      .skipped p :: installer_loop install verify uninstallOk rollbackAns rest installed prompts := by
  simp [installer_loop, hval]

lemma installer_loop_ok_verified (install verify uninstallOk : String → Bool)
    (rollbackAns : Nat → String) (p : String) (rest installed : List String) (prompts : Nat)
    (hval : validate_package_name p = true) (hi : install p = true) (hv : verify p = true) :
    installer_loop install verify uninstallOk rollbackAns (p :: rest) installed prompts =
      .installCall p true :: .verifyResult p true ::
        installer_loop install verify uninstallOk rollbackAns rest (installed ++ [p]) prompts := by
  simp [installer_loop, hval, hi, hv]

lemma installer_loop_fail_approved (install verify uninstallOk : String → Bool)
    (rollbackAns : Nat → String) (p : String) (rest installed : List String) (prompts : Nat)
    (hval : validate_package_name p = true) (hi : install p = false)
    (hans : pyLower (rollbackAns prompts) = "y") :
    installer_loop install verify uninstallOk rollbackAns (p :: rest) installed prompts =
      .installCall p false :: .rollbackPrompt true ::
        ((installed.map fun q => InstEvent.uninstallCall q (uninstallOk q)) ++ [.rollbackDone]) := by
  simp [installer_loop, hval, hi, hans]

lemma installer_loop_fail_declined (install verify uninstallOk : String → Bool)
    (rollbackAns : Nat → String) (p : String) (rest installed : List String) (prompts : Nat)
    (hval : validate_package_name p = true) (hi : install p = false)
    (hans : ¬ pyLower (rollbackAns prompts) = "y") :
    installer_loop install verify uninstallOk rollbackAns (p :: rest) installed prompts =
      .installCall p false :: .rollbackPrompt false ::
        installer_loop install verify uninstallOk rollbackAns rest installed (prompts + 1) := by
  simp [installer_loop, hval, hi, hans]

lemma subprocessPackageArgs_cons_installCall (p : String) (b : Bool) (events : List InstEvent) :
    subprocessPackageArgs (.installCall p b :: events) = p :: subprocessPackageArgs events := by
  simp [subprocessPackageArgs]

lemma subprocessPackageArgs_cons_other (e : InstEvent) (events : List InstEvent)
    (h : ∀ p b, e ≠ .installCall p b) (h2 : ∀ p b, e ≠ .uninstallCall p b) :
    subprocessPackageArgs (e :: events) = subprocessPackageArgs events := by
  cases e <;> simp [subprocessPackageArgs] <;> first
    | rfl
    | exact absurd rfl (by solve_by_elim)

lemma installer_loop_args_validated (install verify uninstallOk : String → Bool)
    (rollbackAns : Nat → String) :
    ∀ (reqs installed : List String) (prompts : Nat),
      (∀ p ∈ installed, validate_package_name p = true) →
      ∀ p ∈ subprocessPackageArgs
        (installer_loop install verify uninstallOk rollbackAns reqs installed prompts),
        validate_package_name p = true := by
  intro reqs
  induction reqs with
  | nil =>
    intro installed prompts _ p hp
    simp [installer_loop, subprocessPackageArgs] at hp
  | cons q reqs ih =>
    intro installed prompts hinst p hp
    by_cases hval : validate_package_name q
    · by_cases hi : install q
      · by_cases hv : verify q
        · rw [installer_loop_ok_verified install verify uninstallOk rollbackAns q reqs
              installed prompts hval hi hv,
            subprocessPackageArgs_cons_installCall,
            subprocessPackageArgs_cons_other (InstEvent.verifyResult q true) _
              (by intro a b hc; cases hc) (by intro a b hc; cases hc)]
            at hp
          rcases List.mem_cons.mp hp with rfl | hp
          · exact hval
          · refine ih (installed ++ [q]) prompts ?_ p hp
            intro r hr
            rcases List.mem_append.mp hr with hr | hr
            · exact hinst r hr
            · rw [List.mem_singleton.mp hr]; exact hval
        · have hv' : verify q = false := by simpa using hv
          rw [installer_loop_verify_fail install verify uninstallOk rollbackAns q reqs
              installed prompts hval hi hv',
            subprocessPackageArgs_cons_installCall,
            subprocessPackageArgs_cons_other (InstEvent.verifyResult q false) _
              (by intro a b hc; cases hc) (by intro a b hc; cases hc)]
            at hp
          rcases List.mem_cons.mp hp with rfl | hp
          · exact hval
          · exact ih installed prompts hinst p hp
      · have hi' : install q = false := by simpa using hi
        by_cases hans : pyLower (rollbackAns prompts) = "y"
        · rw [installer_loop_fail_approved install verify uninstallOk rollbackAns q reqs
              installed prompts hval hi' hans,
            subprocessPackageArgs_cons_installCall,
            subprocessPackageArgs_cons_other (InstEvent.rollbackPrompt true) _
              (by intro a b hc; cases hc) (by intro a b hc; cases hc)]
            at hp
          rcases List.mem_cons.mp hp with rfl | hp
          · exact hval
          · simp only [subprocessPackageArgs, List.filterMap_append, List.filterMap_map,
              List.mem_append] at hp
            rcases hp with hp | hp
            · obtain ⟨r, hr, hrp⟩ := List.mem_filterMap.mp hp
              simp only [Function.comp, Option.some.injEq] at hrp
              rw [← hrp]
              exact hinst r hr
            · simp [List.mem_filterMap] at hp
        · rw [installer_loop_fail_declined install verify uninstallOk rollbackAns q reqs
              installed prompts hval hi' hans,
            subprocessPackageArgs_cons_installCall,
            subprocessPackageArgs_cons_other (InstEvent.rollbackPrompt false) _
              (by intro a b hc; cases hc) (by intro a b hc; cases hc)]
            at hp
          rcases List.mem_cons.mp hp with rfl | hp
          · exact hval
          · exact ih installed (prompts + 1) hinst p hp
    · have hval' : validate_package_name q = false := by simpa using hval
      rw [installer_loop_skip install verify uninstallOk rollbackAns q reqs installed prompts hval',
        subprocessPackageArgs_cons_other (InstEvent.skipped q) _
          (by intro a b hc; cases hc) (by intro a b hc; cases hc)]
        at hp
      exact ih installed prompts hinst p hp

/-! ## Lemmas: the installation verifier -/

lemma pySplitFirstEqEq_no_eqeq : ∀ {cs : List Char}, hasEqEq cs = false →
    pySplitFirstEqEq cs = cs := by
  intro cs
  induction cs with
  | nil => intro _; rfl
  | cons c cs ih =>
    intro h
    rw [hasEqEq] at h
    by_cases hc : c = '=' ∧ cs.head? = some '='
    · rw [if_pos hc] at h; cases h
    · rw [if_neg hc] at h
      rw [pySplitFirstEqEq, if_neg hc, ih h]

lemma pySplitFirstEqEq_strips {name ver : List Char} (hname : '=' ∉ name) :
    pySplitFirstEqEq (name ++ '=' :: '=' :: ver) = name := by
  induction name with
  | nil => simp [pySplitFirstEqEq]
  | cons c name ih =>
    have hc : c ≠ '=' := fun hcontra => hname (by simp [hcontra])
    rw [List.cons_append, pySplitFirstEqEq, if_neg (by simp [hc]),
      ih fun hcontra => hname (by simp [hcontra])]

lemma pyReplaceDash_no_dash {cs : List Char} (h : '-' ∉ cs) : pyReplaceDash cs = cs := by
  induction cs with
  | nil => rfl
  | cons c cs ih =>
    have hc : c ≠ '-' := fun hcontra => h (by simp [hcontra])
    rw [pyReplaceDash, List.map_cons, if_neg hc]
    have := ih fun hcontra => h (by simp [hcontra])
    rw [pyReplaceDash] at this
    rw [this]

lemma pySplitDashAux_no_dash {cs : List Char} (h : '-' ∉ cs) :
    ∀ acc, pySplitDashAux cs acc = [acc.reverse ++ cs] := by
  induction cs with
  | nil => intro acc; simp [pySplitDashAux]
  | cons c cs ih =>
    intro acc
    have hc : c ≠ '-' := fun hcontra => h (by simp [hcontra])
    rw [pySplitDashAux, if_neg hc, ih (fun hcontra => h (by simp [hcontra])) (c :: acc)]
    simp

lemma lastDashPart_no_dash {cs : List Char} (h : '-' ∉ cs) : lastDashPart cs = cs := by
  rw [lastDashPart, pySplitDash, pySplitDashAux_no_dash h []]
  simp

lemma removeDashes_no_dash {cs : List Char} (h : '-' ∉ cs) : removeDashes cs = cs := by
  rw [removeDashes, List.filter_eq_self]
  intro c hc
  simp only [ne_eq, decide_eq_true_eq]
  intro hcontra
  rw [hcontra] at hc
  exact h hc

/-! ## Claim theorems -/

/-- **C1.** In every run of the expansion loop each iteration requests
`batch_size = min(50, remaining_deficit)` rows and advances the running
total by the requested batch size — independently of the rows actually
parsed from the API's responses (two APIs returning different texts produce
the same call log) — and the loop terminates when the deficit reaches zero
(`rows_added = rows_to_add`, the requested sizes summing to the deficit).
In particular for `current_rows = 10`, `target_rows = 120` (deficit 110)
exactly the 3 requests `[50, 50, 10]` are issued. -/
theorem c1_batch_schedule (api api2 : Nat → Nat → Option String) (d : Nat)
    (f0 f02 orig : List (List String)) (analysis : String)
    (hapi : ∀ i n, (api i n).isSome) (hapi2 : ∀ i n, (api2 i n).isSome) :
    (expansion_loop api d ⟨0, f0, []⟩).calls = expansionBatches d ∧
    (expansion_loop api d ⟨0, f0, []⟩).calls.sum = d ∧
    (expansion_loop api d ⟨0, f0, []⟩).rows_added = d ∧
    (expansion_loop api2 d ⟨0, f02, []⟩).calls = (expansion_loop api d ⟨0, f0, []⟩).calls ∧
    (∀ b : Nat → Nat → Option String, ∃ tail,
      (expansion_loop b d ⟨0, f0, []⟩).calls = tail ∧ clampChain d tail = true) ∧
    (orig.length = 10 →
      (expander_main api (some analysis) orig 120).generationCalls = [50, 50, 10]) := by
  have hcalls : (expansion_loop api d ⟨0, f0, []⟩).calls = expansionBatches d := by
    rw [expansion_loop]
    rw [expansion_loop_aux_calls api d hapi]
    simp [expansionBatches]
  have hcalls2 : (expansion_loop api2 d ⟨0, f02, []⟩).calls = expansionBatches d := by
    rw [expansion_loop]
    rw [expansion_loop_aux_calls api2 d hapi2]
    simp [expansionBatches]
  refine ⟨hcalls, ?_, ?_, ?_, ?_, ?_⟩
  · rw [hcalls, expansionBatches, expansionBatchesAux_sum d d le_rfl]
  · rw [expansion_loop]
    rw [expansion_loop_aux_rows_added api d hapi]
    simp [expansionBatches, expansionBatchesAux_sum d d le_rfl]
  · rw [hcalls, hcalls2]
  · intro b
    obtain ⟨tail, htail, hchain⟩ := expansion_loop_aux_clamp b d (d - 0) ⟨0, f0, []⟩
    refine ⟨tail, ?_, ?_⟩
    · rw [expansion_loop]
      simpa using htail
    · simpa using hchain
  · intro hlen
    have h110 : (expansion_loop api 110 ⟨0, orig, []⟩).calls = [50, 50, 10] := by
      rw [expansion_loop, expansion_loop_aux_calls api 110 hapi]
      show expansionBatchesAux 110 110 = [50, 50, 10]
      decide
    simp only [expander_main, hlen]
    norm_num
    exact h110

/-- **C1 witness.** The schedule at `current_rows = 10`, `target_rows = 120`
with a mocked API. -/
theorem c1_batch_schedule_witness :
    (expansion_loop (fun _ _ => some ("x")) 110 ⟨0, List.replicate 10 [("v")], []⟩).calls
      = [50, 50, 10] ∧
    (expander_main (fun _ _ => some ("x")) (some ("a"))
      (List.replicate 10 [("v")]) 120).generationCalls = [50, 50, 10] := by
  have h := c1_batch_schedule (fun _ _ => some ("x")) (fun _ _ => some ("x")) 110
    (List.replicate 10 [("v")]) (List.replicate 10 [("v")]) (List.replicate 10 [("v")])
    ("a") (fun _ _ => rfl) (fun _ _ => rfl)
  exact ⟨h.1.trans (by decide), h.2.2.2.2.2 (by decide)⟩

/-- **C6.** If `target_rows ≤ current_rows` the expander makes zero chat
calls — neither the analysis call nor any generation call — and creates no
output artifact: the run's observable outcome is `⟨0, [], none⟩`. -/
theorem c6_no_op_when_target_reached (api : Nat → Nat → Option String)
    (analysisResult : Option String) (originalRows : List (List String)) (target_rows : Nat)
    (h : target_rows ≤ originalRows.length) :
    expander_main api analysisResult originalRows target_rows = ⟨0, [], none⟩ := by
  have hz : target_rows - originalRows.length = 0 := by omega
  simp [expander_main, hz]

/-- **C6 witness.** A one-row dataset asked to reach one row. -/
theorem c6_no_op_when_target_reached_witness :
    expander_main (fun _ _ => none) none [[("r")]] 1 = ⟨0, [], none⟩ :=
  c6_no_op_when_target_reached (fun _ _ => none) none [[("r")]] 1 (by decide)

/-- **C7 counterexample.** The claim's bound fails as stated: nothing in the
code limits how many rows a response contributes.  With an empty original
dataset, `target_rows = 2` and an API that answers the single 2-row request
with 60 lines, the output artifact ends with 60 rows — more than the target
(2) plus one batch cap (50). -/
theorem c7_counterexample :
    ((expander_main (fun _ _ => some (String.mk ((List.replicate 60 ['x', '\n']).flatten)))
      (some ("a")) [] 2).output.getD []).length = 60 ∧ 2 + 50 < 60 := by decide

/-- **C7 (amended).** The output artifact is append-only: from any reachable
loop state the file of every later state extends it (so its row count is
monotonically non-decreasing throughout the run); and provided every API
response parses to at most the requested number of records — the clamped
batch sizes then bound the growth — the output of a run never exceeds the
target row count at all.  (Without that bound on responses the stated
"never exceeds the target by more than one batch's slack" is false, see the
counterexample.) -/
theorem c7_row_count_invariant (api : Nat → Nat → Option String) (analysis : String)
    (orig : List (List String)) (t : Nat)
    (hle : ∀ i n txt, api i n = some txt → (recordsOfText txt).length ≤ n) :
    (∀ R fuel s, ∃ tail, (expansion_loop_aux api R fuel s).file = s.file ++ tail) ∧
    (∀ out, (expander_main api (some analysis) orig t).output = some out →
      (∃ tail, out = orig ++ tail) ∧ out.length ≤ t) := by
  constructor
  · intro R fuel s
    exact expansion_loop_aux_file_mono api R fuel s
  · intro out hout
    by_cases hz : t - orig.length = 0
    · simp [expander_main, hz] at hout
    · simp only [expander_main, hz, if_false, if_neg] at hout
      have hout' : (expansion_loop api (t - orig.length) ⟨0, orig, []⟩).file = out := by
        simpa using hout
      constructor
      · obtain ⟨tail, htail⟩ := expansion_loop_aux_file_mono api (t - orig.length)
          (t - orig.length - (0 : Nat)) ⟨0, orig, []⟩
        refine ⟨tail, ?_⟩
        rw [← hout', expansion_loop]
        simpa using htail
      · have hb := expansion_loop_aux_file_bound api (t - orig.length) hle
          (t - orig.length - (0 : Nat)) ⟨0, orig, []⟩
        rw [expansion_loop] at hout'
        have hfile : (expansion_loop_aux api (t - orig.length)
            (t - orig.length - (⟨0, orig, []⟩ : ExpState).rows_added) ⟨0, orig, []⟩).file
            = out := hout'
        simp only [show (⟨0, orig, []⟩ : ExpState).rows_added = 0 from rfl] at hfile
        rw [hfile] at hb
        simp only [show (⟨0, orig, []⟩ : ExpState).file = orig from rfl,
          show (⟨0, orig, []⟩ : ExpState).rows_added = 0 from rfl] at hb
        omega

/-- **C7 witness.** A conforming run: the file stays within the target. -/
theorem c7_row_count_invariant_witness :
    ((expander_main (fun _ _ => some ("")) (some ("a")) [[("r")]] 3).output.getD []).length
      ≤ 3 := by
  have h := c7_row_count_invariant (fun _ _ => some ("")) ("a") [[("r")]] 3
    (by
      intro i n txt htxt
      rw [← Option.some.inj htxt]
      rw [show (recordsOfText ("")).length = 0 from rfl]
      exact Nat.zero_le n)
  have h2 := (h.2 [[("r")]] (by decide)).2
  rw [show (expander_main (fun _ _ => some ("")) (some ("a")) [[("r")]] 3).output
      = some [[("r")]] from by decide]
  simp only [Option.getD_some]
  exact h2


/-- **C8 counterexample.** The loop never checks field counts.  With a
3-column dataset (`current_rows = 1`, `target_rows = 2`) and an API response
`"a,b"`, the appended row has 2 fields; re-parsed with the same reader after
`csv.writer` serialization it still has 2 fields, not the header's 3. -/
theorem c8_counterexample :
    (expander_main (fun _ _ => some ("a,b")) (some ("an"))
      [[("1"), ("2"), ("3")]] 2).output = some [[("1"), ("2"), ("3")], [("a"), ("b")]] ∧
    (parseCSVRecord (csvWriteRecord ([("a"), ("b")].map String.data))).length = 2 ∧
    ¬ (parseCSVRecord (csvWriteRecord ([("a"), ("b")].map String.data))).length = 3 := by
  decide

/-- **C8 (amended).** Serializing a record with `csv.writer` and re-parsing
the written line with `csv.reader` yields exactly the same record, hence the
same field count the record had when it was parsed out of the API response.
Provided every record parsed from every API response has the header's field
count — and the original rows do too — every row of the output artifact
(in particular every appended row) re-parses to the header's field count.
Unconditionally the claim is false: the loop appends rows of any width (see
the counterexample). -/
theorem c8_round_trip (api : Nat → Nat → Option String) (analysis : String)
    (orig : List (List String)) (t : Nat) (headerCount : Nat)
    (hapi : ∀ i n txt, api i n = some txt → ∀ r ∈ recordsOfText txt, r.length = headerCount)
    (horig : ∀ r ∈ orig, r.length = headerCount) :
    ∀ out, (expander_main api (some analysis) orig t).output = some out →
      ∀ r ∈ out, parseCSVRecord (csvWriteRecord (r.map String.data)) = r ∧
        (parseCSVRecord (csvWriteRecord (r.map String.data))).length = headerCount := by
  intro out hout r hr
  have hrt := parseCSVRecord_write r
  refine ⟨hrt, ?_⟩
  rw [hrt]
  by_cases hz : t - orig.length = 0
  · simp [expander_main, hz] at hout
  · simp only [expander_main, hz, if_false, if_neg] at hout
    have hout' : (expansion_loop api (t - orig.length) ⟨0, orig, []⟩).file = out := by
      simpa using hout
    rw [← hout', expansion_loop] at hr
    rcases expansion_loop_aux_file_mem api (t - orig.length) _ _ r hr with hmem | ⟨i, n, txt, htxt, hmem⟩
    · exact horig r hmem
    · exact hapi i n txt htxt r hmem

/-- **C8 witness.** A conforming 2-column run: the appended row `["a","b"]`
round-trips to itself. -/
theorem c8_round_trip_witness :
    parseCSVRecord (csvWriteRecord ([("a"), ("b")].map String.data)) = [("a"), ("b")] := by
  have h := c8_round_trip (fun _ _ => some ("a,b")) ("an") [[("x"), ("y")]] 2 2
    (by
      intro i n txt htxt r hr
      rw [← Option.some.inj htxt] at hr
      have hreq : r = [("a"), ("b")] := by
        rw [show recordsOfText ("a,b") = [[("a"), ("b")]] from rfl, List.mem_singleton] at hr
        exact hr
      rw [hreq]
      rfl)
    (by decide)
  exact (h [[("x"), ("y")], [("a"), ("b")]] (by decide) [("a"), ("b")] (by decide)).1

/-- **C2 counterexample.** Requirements `["alpha", "beta"]`: `alpha` installs
but fails verification, `beta` fails to install, rollback is approved.  The
claim says `alpha` is "still recorded in the install record used for
rollback" — but the run performs no uninstall call at all: `install.py`
appends a package to `installed_packages` only inside the
`if verify_installation(package):` branch (line 165), so the rollback record
stayed empty. -/
theorem c2_counterexample :
    installer_loop (fun p => p == ("alpha")) (fun _ => false) (fun _ => true)
      (fun _ => ("y")) [("alpha"), ("beta")] [] 0 =
      [.installCall ("alpha") true, .verifyResult ("alpha") false,
        .installCall ("beta") false, .rollbackPrompt true, .rollbackDone] ∧
    InstEvent.uninstallCall ("alpha") true ∉
      installer_loop (fun p => p == ("alpha")) (fun _ => false) (fun _ => true)
        (fun _ => ("y")) [("alpha"), ("beta")] [] 0 ∧
    InstEvent.uninstallCall ("alpha") false ∉
      installer_loop (fun p => p == ("alpha")) (fun _ => false) (fun _ => true)
        (fun _ => ("y")) [("alpha"), ("beta")] [] 0 := by
  decide

/-- **C2 (amended).** A verification failure after a successful install is
non-fatal: the warning is emitted (`verifyResult p false`) and the loop
continues with the next requirement — but the package is NOT added to the
install record (`installed` is passed on unchanged), so a later rollback
will not uninstall it. -/
theorem c2_verify_failure_nonfatal (install verify uninstallOk : String → Bool)
    (rollbackAns : Nat → String) (p : String) (rest installed : List String) (prompts : Nat)
    (hval : validate_package_name p = true) (hi : install p = true) (hv : verify p = false) :
    installer_loop install verify uninstallOk rollbackAns (p :: rest) installed prompts =
      .installCall p true :: .verifyResult p false ::
        installer_loop install verify uninstallOk rollbackAns rest installed prompts :=
  installer_loop_verify_fail install verify uninstallOk rollbackAns p rest installed prompts
    hval hi hv

/-- **C2 witness.** `numpy` installs, fails verification, and processing
continues with `pandas` over an unchanged record. -/
theorem c2_verify_failure_nonfatal_witness :
    installer_loop (fun _ => true) (fun q => q != ("numpy")) (fun _ => true)
      (fun _ => ("y")) [("numpy"), ("pandas")] [] 0 =
      .installCall ("numpy") true :: .verifyResult ("numpy") false ::
        installer_loop (fun _ => true) (fun q => q != ("numpy")) (fun _ => true)
          (fun _ => ("y")) [("pandas")] [] 0 :=
  c2_verify_failure_nonfatal (fun _ => true) (fun q => q != ("numpy")) (fun _ => true)
    (fun _ => ("y")) ("numpy") [("pandas")] [] 0 (by decide) (by decide) (by decide)

/-- **C3 counterexample.** Requirements `["req1", "req2", "req3"]`: the
installs of `req1` and `req2` succeed (`req2` fails verification), `req3`
fails to install, rollback is approved.  The claim says uninstall is
attempted for exactly `req1, req2` — but only `req1` is uninstalled: the
record holds only verified packages. -/
theorem c3_counterexample :
    installer_loop (fun p => p != ("req3")) (fun p => p == ("req1")) (fun _ => true)
      (fun _ => ("y")) [("req1"), ("req2"), ("req3")] [] 0 =
      [.installCall ("req1") true, .verifyResult ("req1") true,
        .installCall ("req2") true, .verifyResult ("req2") false,
        .installCall ("req3") false, .rollbackPrompt true,
        .uninstallCall ("req1") true, .rollbackDone] := by
  decide

/-- **C3 (amended).** If the install of requirement `q` fails after the
requirements `ps` were all validated and installed, and the user approves
rollback, one uninstall call is issued for exactly those packages of `ps`
that also passed verification (the install record), appended after the prior
record and in original order — one call per recorded package regardless of
each uninstall's own success or failure — after which the run returns. -/
theorem c3_rollback_scope (install verify uninstallOk : String → Bool)
    (rollbackAns : Nat → String) (q : String) (rest : List String)
    (ps installed : List String) (prompts : Nat)
    (hps : ∀ p ∈ ps, validate_package_name p = true ∧ install p = true)
    (hq : validate_package_name q = true) (hiq : install q = false)
    (hans : pyLower (rollbackAns prompts) = "y") :
    installer_loop install verify uninstallOk rollbackAns (ps ++ q :: rest) installed prompts =
      (ps.map fun p => [InstEvent.installCall p true, .verifyResult p (verify p)]).flatten
        ++ .installCall q false :: .rollbackPrompt true ::
          (((installed ++ ps.filter fun p => verify p).map
            fun p => InstEvent.uninstallCall p (uninstallOk p)) ++ [.rollbackDone]) :=
  installer_loop_rollback install verify uninstallOk rollbackAns q rest ps installed prompts
    hps hq hiq hans

/-- **C3 witness.** One verified install, one failed install, approved
rollback; the uninstall of `pkga` fails but is still the only call issued. -/
theorem c3_rollback_scope_witness :
    installer_loop (fun p => p != ("pkgb")) (fun _ => true) (fun _ => false)
      (fun _ => ("y")) [("pkga"), ("pkgb")] [] 0 =
      [.installCall ("pkga") true, .verifyResult ("pkga") true,
        .installCall ("pkgb") false, .rollbackPrompt true,
        .uninstallCall ("pkga") false, .rollbackDone] := by
  have h := c3_rollback_scope (fun p => p != ("pkgb")) (fun _ => true) (fun _ => false)
    (fun _ => ("y")) ("pkgb") [] [("pkga")] [] 0 (by decide) (by decide) (by decide) (by decide)
  rw [show ([("pkga")] ++ ("pkgb") :: [] : List String) = [("pkga"), ("pkgb")] from rfl] at h
  rw [h]
  decide

/-- **C4.** The self-check gate is a three-case state machine.  No stored
digest (`saved = ""`): the run is accepted, the current digest is persisted,
no prompt.  Stored digest equal to the current one: the run proceeds without
prompting and the stored digest is untouched.  Mismatch: the user is
prompted; an answer lowercasing to `"y"` persists the new digest and
continues; any other answer halts — `main` returns before any package
operation, so the whole installer run produces no events at all. -/
theorem c4_self_check_gate (current saved answer : String) (pythonOk : Bool)
    (manifest : Option (List String)) (install verify uninstallOk : String → Bool)
    (rollbackAns : Nat → String) :
    (saved = "" → self_check current saved answer = ⟨true, current, false⟩) ∧
    (saved ≠ "" → current = saved → self_check current saved answer = ⟨true, saved, false⟩) ∧
    (saved ≠ "" → current ≠ saved → pyLower answer = "y" →
      self_check current saved answer = ⟨true, current, true⟩) ∧
    (saved ≠ "" → current ≠ saved → ¬ pyLower answer = "y" →
      self_check current saved answer = ⟨false, saved, true⟩ ∧
      installer_main current saved answer pythonOk manifest install verify uninstallOk
        rollbackAns = []) := by
  refine ⟨?_, ?_, ?_, ?_⟩
  · intro h1
    simp [self_check, h1]
  · intro h1 h2
    simp [self_check, h1, h2]
  · intro h1 h2 h3
    simp [self_check, h1, h2, h3]
  · intro h1 h2 h3
    have hsc : self_check current saved answer = ⟨false, saved, true⟩ := by
      simp [self_check, h1, h2, h3]
    exact ⟨hsc, by simp [installer_main, hsc]⟩

/-- **C4 witness.** A mismatched digest with answer `"n"`: the gate refuses
and the installer performs nothing. -/
theorem c4_self_check_gate_witness :
    self_check ("d2") ("d1") ("n") = ⟨false, ("d1"), true⟩ ∧
    installer_main ("d2") ("d1") ("n") true (some [("numpy")]) (fun _ => true)
      (fun _ => true) (fun _ => true) (fun _ => ("y")) = [] := by
  have h := c4_self_check_gate ("d2") ("d1") ("n") true (some [("numpy")]) (fun _ => true)
    (fun _ => true) (fun _ => true) (fun _ => ("y"))
  exact h.2.2.2 (by decide) (by decide) (by decide)

/-- **C5 counterexample.** `"numpy\n"` contains a newline — a shell
metacharacter (the command separator) that is outside the allowed grammar —
yet `validate_package_name` accepts it, because Python's `$` anchor also
matches just before a newline at the end of the string.  So "for every
string containing shell metacharacters outside the grammar, validation
rejects" is false as stated. -/
theorem c5_counterexample :
    validate_package_name ("numpy\n") = true ∧ '\n' ∈ ("numpy\n").data ∧
      isGrammarChar '\n' = false ∧ isOpChar '\n' = false := by
  decide

/-- **C5 (amended).** Every string matching the allowed grammar — a nonempty
name over `[a-zA-Z0-9_.-]`, optionally one comparison operator
(`< > = ! <= >= == !=`) and a nonempty version over the same class — is
accepted.  Every string containing a character outside the grammar classes
other than a newline is rejected; a newline is tolerated only as the single
final character (the `$`-anchor artifact).  Rejected strings are skipped by
the install loop and never become the package argument of a `pip`
subprocess call. -/
theorem c5_validation_boundary (install verify uninstallOk : String → Bool)
    (rollbackAns : Nat → String) (reqs : List String) :
    (∀ name : List Char, name ≠ [] → (∀ c ∈ name, isGrammarChar c = true) →
      validate_package_name (String.mk name) = true) ∧
    (∀ (name ver : List Char) (o : Char) (useEq : Bool), name ≠ [] →
      (∀ c ∈ name, isGrammarChar c = true) → isOpChar o = true → ver ≠ [] →
      (∀ c ∈ ver, isGrammarChar c = true) →
      validate_package_name
        (String.mk (name ++ o :: ((if useEq then ['='] else []) ++ ver))) = true) ∧
    (∀ (s : String) (c : Char), c ∈ s.data → isGrammarChar c = false →
      isOpChar c = false → c ≠ '\n' → validate_package_name s = false) ∧
    (∀ s : String, validate_package_name s = true → '\n' ∈ s.data →
      s.data.getLast? = some '\n' ∧ '\n' ∉ s.data.dropLast) ∧
    (∀ p ∈ subprocessPackageArgs
        (installer_loop install verify uninstallOk rollbackAns reqs [] 0),
      validate_package_name p = true) := by
  refine ⟨?_, ?_, ?_, ?_, ?_⟩
  · intro name hn0 hn
    rw [validate_package_name]
    have : regexMatches (String.mk name).data = true := regexMatches_name hn0 hn
    simp [this]
  · intro name ver o useEq hn0 hn ho hv0 hv
    rw [validate_package_name]
    have : regexMatches (String.mk (name ++ o :: ((if useEq then ['='] else []) ++ ver))).data
        = true := regexMatches_with_op hn0 hn ho useEq hv0 hv
    simp [this]
  · intro s c hc hg ho hne
    cases hvp : validate_package_name s with
    | false => rfl
    | true =>
      exfalso
      rcases validate_chars hvp with hall | ⟨hlast, hall⟩
      · rcases hall c hc with h | h
        · rw [h] at hg; cases hg
        · rw [h] at ho; cases ho
      · have hne' : s.data ≠ [] := List.ne_nil_of_mem hc
        have hlasteq : s.data.getLast hne' = '\n' := by
          rw [List.getLast?_eq_getLast s.data hne'] at hlast
          exact Option.some.inj hlast
        have hsplit := List.dropLast_append_getLast hne'
        rw [← hsplit] at hc
        rcases List.mem_append.mp hc with hmem | hmem
        · rcases hall c hmem with h | h
          · rw [h] at hg; cases hg
          · rw [h] at ho; cases ho
        · rw [List.mem_singleton.mp hmem, hlasteq] at hne
          exact hne rfl
  · intro s hvp hnl
    rcases validate_chars hvp with hall | ⟨hlast, hall⟩
    · rcases hall '\n' hnl with h | h
      · exact absurd h (by decide)
      · exact absurd h (by decide)
    · refine ⟨hlast, ?_⟩
      intro hmem
      rcases hall '\n' hmem with h | h
      · exact absurd h (by decide)
      · exact absurd h (by decide)
  · exact installer_loop_args_validated install verify uninstallOk rollbackAns reqs [] 0
      (by intro p hp; cases hp)

/-- **C5 witness.** `requests>=2.0` is accepted; `pkg;rm` is rejected and
never reaches a subprocess. -/
theorem c5_validation_boundary_witness :
    validate_package_name ("requests>=2.0") = true ∧
    validate_package_name ("pkg;rm") = false ∧
    ("pkg;rm" : String) ∉ subprocessPackageArgs
      (installer_loop (fun _ => true) (fun _ => true) (fun _ => true) (fun _ => ("y"))
        [("pkg;rm")] [] 0) := by
  have h := c5_validation_boundary (fun _ => true) (fun _ => true) (fun _ => true)
    (fun _ => ("y")) [("pkg;rm")]
  refine ⟨?_, ?_, ?_⟩
  · have hx := h.2.1 (("requests").data) (("2.0").data) '>' true (by decide) (by decide)
      (by decide) (by decide) (by decide)
    exact hx
  · exact h.2.2.1 ("pkg;rm") ';' (by decide) (by decide) (by decide) (by decide)
  · intro hmem
    have := h.2.2.2.2 ("pkg;rm") hmem
    rw [show validate_package_name ("pkg;rm") = false from by decide] at this
    cases this

/-- **C9.** When reading the requirements manifest, every blank line (one
whose stripped form is empty) and every `#`-prefixed comment line is
ignored, and every other line is returned, stripped, as a requirement:
`read_requirements` coincides with the spec's blank/comment filter on every
manifest. -/
theorem c9_manifest_lines (lines : List String) :
    read_requirements lines = read_requirements_spec lines := by
  induction lines with
  | nil => rfl
  | cons l lines ih =>
    by_cases h1 : pyStrip l = "" <;> by_cases h2 : pyStartsWithHash l <;>
      simp [read_requirements, read_requirements_spec, List.filterMap_cons, List.filter_cons,
        h1, h2] <;>
      simpa [read_requirements, read_requirements_spec] using ih

/-- **C10 counterexample.** For the hyphenated requirement `my-pkg>=1.0` the
verifier's import attempts are the four candidates below; the third one,
`package_name.split('-')[-1]`, is `"pkg>=1.0"` — not the entire constraint
string — refuting "the entire constraint string … is used as the module
name for every import attempt". -/
theorem c10_counterexample :
    importCandidates ("my-pkg>=1.0") =
      [("my-pkg>=1.0"), ("my_pkg>=1.0"), ("pkg>=1.0"), ("mypkg>=1.0")] ∧
    ("pkg>=1.0" : String) ≠ ("my-pkg>=1.0") := by
  decide

/-- **C10 (amended).** The verifier strips a version constraint only at a
literal `==`: for every requirement not containing `==`, the base name
`package.split('==')[0]` is the entire constraint string, so the metadata
query (`pip show`) argument is exactly the whole requirement — operator and
version included — and the first import attempt is exactly the whole
requirement, the remaining attempts being hyphen transformations of the
whole requirement (for hyphen-free requirements all four attempts are the
whole requirement).  By contrast, a `==` requirement is stripped to the bare
name. -/
theorem c10_version_strip_only_eqeq (p : String) (name ver : List Char)
    (hno : hasEqEq p.data = false) (hname : '=' ∉ name) :
    pipShowArg p = p ∧
    (importCandidates p).head? = some p ∧
    ('-' ∉ p.data → importCandidates p = [p, p, p, p]) ∧
    pipShowArg (String.mk (name ++ '=' :: '=' :: ver)) = String.mk name := by
  have hsplit : pySplitFirstEqEq p.data = p.data := pySplitFirstEqEq_no_eqeq hno
  refine ⟨?_, ?_, ?_, ?_⟩
  · rw [pipShowArg, hsplit]
  · rw [importCandidates]
    simp only [hsplit, List.head?_cons]
  · intro hdash
    rw [importCandidates]
    simp only [hsplit, pyReplaceDash_no_dash hdash, lastDashPart_no_dash hdash,
      removeDashes_no_dash hdash]
  · rw [pipShowArg, show (String.mk (name ++ '=' :: '=' :: ver)).data
        = name ++ '=' :: '=' :: ver from rfl, pySplitFirstEqEq_strips hname]

/-- **C10 witness.** `torch>=2.1` keeps its whole constraint everywhere;
`numpy==1.2` is stripped to `numpy`. -/
theorem c10_version_strip_only_eqeq_witness :
    pipShowArg ("torch>=2.1") = ("torch>=2.1") ∧
    importCandidates ("torch>=2.1") =
      [("torch>=2.1"), ("torch>=2.1"), ("torch>=2.1"), ("torch>=2.1")] ∧
    pipShowArg ("numpy==1.2") = ("numpy") := by
  have h := c10_version_strip_only_eqeq ("torch>=2.1") (("numpy").data) (("1.2").data)
    (by decide) (by decide)
  exact ⟨h.1, h.2.2.1 (by decide), h.2.2.2⟩
